import Mathlib

/-!
Formal model of the grocery-list manager in `src/app.py`.

The program keeps a canonical table of grocery rows in session state,
derives a filtered view of it (urgency multiselect, show-completed
checkbox, free-text search), supports adding rows through a form,
writes edits of the view back into the canonical table by positional
index, persists the table to a remote sheet, and exports it as CSV.

Modelling decisions (each mirrors a construct of the source):
* A pandas DataFrame row is a `Row`; a cell that can be missing (NaN)
  is an `Option`.  After `load_data` the `Completed` column is coerced
  to plain `Bool` (`fillna(False).astype(bool)`), so in-memory rows
  carry `completed : Bool` while remote rows carry `Option Bool`.
* A DataFrame keeps its positional index through filtering, so the
  filtered view is a list of (original index, row) pairs obtained by
  filtering `List.enum` of the table.
* `pd.Series.str.contains(s, na=False)` treats the search text as a
  regular expression (`regex=True` is the pandas default) and never
  matches a missing cell.  The matcher is modelled for the fragment in
  which the only metacharacter is `.` (matching any character except a
  line break): on that fragment the model is faithful, and on search
  text free of every metacharacter it coincides with case-folded
  literal substring containment (`fieldContainsLit`).  Search text
  using other regex features — or an invalid pattern, which makes
  pandas raise `re.error` — lies outside the model, so the search
  characterisation theorem carries an explicit metacharacter-free
  hypothesis.
* Side effects are made explicit: a handler returns the new table
  together with the list of tables passed to `save_data`.
-/

namespace Grocer

/-- One grocery row, mirroring the six canonical columns of the sheet.
Text cells may be missing (pandas NaN); `completed` is a plain `Bool`
because `load_data` coerces the column with `fillna(False).astype(bool)`. -/
structure Row where
  dateAdded : Option String
  itemNeeded : Option String
  quantity : Option String
  whereToGet : Option String
  urgency : Option String
  completed : Bool
  deriving DecidableEq, Repr

/-- A row as stored remotely, before `load_data` normalizes the
`Completed` column: every cell, including `Completed`, may be missing. -/
structure RemoteRow where
  dateAdded : Option String
  itemNeeded : Option String
  quantity : Option String
  whereToGet : Option String
  urgency : Option String
  completed : Option Bool
  deriving DecidableEq, Repr

/-- The fixed column set of `load_data` / `save_data` / the CSV header. -/
def canonicalColumns : List String :=
  ["Date Added", "Item Needed", "Quantity", "Where to Get", "Urgency", "Completed"]

/-- The three urgency options offered by the sidebar multiselect. -/
def allUrgencies : List String := ["Now", "Soon", "Yesterday!"]

/-- The whitespace characters removed by Python `str.strip()`. -/
def pyWhitespace (c : Char) : Bool :=
  c = ' ' || c = '\t' || c = '\n' || c = '\x0d' || c = '\x0b' || c = '\x0c'

/-- Python `str.strip()`: drop leading and trailing whitespace. -/
def pyStrip (s : String) : String :=
  ⟨((s.data.dropWhile pyWhitespace).reverse.dropWhile pyWhitespace).reverse⟩

/-- Python `str.lower()` on the ASCII letters the app uses. -/
def pyLower (s : String) : String :=
  ⟨s.data.map Char.toLower⟩

/-- `leadMatch pat l` holds when `pat` is an initial segment of `l`. -/
def leadMatch : List Char → List Char → Bool
  | [], _ => true
  | _ :: _, [] => false
  | c :: cs, d :: ds => c = d && leadMatch cs ds

/-- `occursIn pat l` holds when `pat` occurs contiguously inside `l`. -/
def occursIn (pat : List Char) : List Char → Bool
  | [] => pat.isEmpty
  | d :: ds => leadMatch pat (d :: ds) || occursIn pat ds

/-- Literal substring containment on strings (Python `in`). -/
def strContains (hay pat : String) : Bool :=
  occursIn pat.data hay.data

/-- The metacharacters of Python regular expressions: a pattern containing
none of these is matched by `re.search` exactly as a literal substring. -/
def reMeta : List Char :=
  ['.', '^', '$', '*', '+', '?', '\x7b', '\x7d', '[', ']', '\\', '|', '(', ')']

/-- A search text whose stripped, lowered form pandas matches literally:
it contains no regex metacharacter. -/
def regexFree (s : String) : Bool :=
  s.data.all fun c => !reMeta.contains c

/-- One attempted match of the pattern at the head of the text, for the
regex fragment this model covers: `.` matches any character other than a
line break (`re.DOTALL` is off), every other character matches itself.
Modelled from the documented semantics of `re.search`, which pandas
`str.contains` applies with `regex=True`. -/
def reLeadMatch : List Char → List Char → Bool
  | [], _ => true
  | _ :: _, [] => false
  | c :: cs, d :: ds => (if c = '.' then !(d = '\n' : Bool) else (c = d : Bool)) &&
      reLeadMatch cs ds

/-- `re.search` on the modelled fragment: the pattern matches at some
position of the text. -/
def reOccurs (pat : List Char) : List Char → Bool
  | [] => pat.isEmpty
  | d :: ds => reLeadMatch pat (d :: ds) || reOccurs pat ds

/-- `df[col].str.lower().str.contains(s, na=False)` applied to one cell:
a missing cell never matches (`na=False`); otherwise pandas matches the
already-lowered search text `s` as a regular expression against the
lower-cased cell. -/
def fieldMatches (field : Option String) (s : String) : Bool :=
  match field with
  | some f => reOccurs s.data (pyLower f).data
  | none => false

/-- The spec's reading of the search: the lower-cased cell contains the
search text as a literal substring, a missing cell never matching.  It
agrees with `fieldMatches` exactly on metacharacter-free search text. -/
def fieldContainsLit (field : Option String) (s : String) : Bool :=
  match field with
  | some f => strContains (pyLower f) s
  | none => false

/-- `df["Urgency"].isin(urgency_filter)` applied to one row: a missing
urgency cell is never a member. -/
def urgencyIn (u : List String) (r : Row) : Bool :=
  match r.urgency with
  | some s => u.contains s
  | none => false

/-- Line 158-159: `if urgency_filter: df = df[df["Urgency"].isin(urgency_filter)]`.
An empty multiselect is falsy, so the urgency filter is skipped entirely. -/
def urgencyStage (t : List Row) (u : List String) : List (Nat × Row) :=
  if u.isEmpty then t.enum else t.enum.filter fun p => urgencyIn u p.2

/-- Line 161-162: `if not show_completed: df = df[~df["Completed"]]`. -/
def completedStage (v : List (Nat × Row)) (sc : Bool) : List (Nat × Row) :=
  if sc then v else v.filter fun p => !p.2.completed

/-- Lines 164-169: `if search_text.strip(): s = search_text.strip().lower();
df = df[item.contains(s) | source.contains(s)]`; a blank search is skipped,
missing cells never match (`na=False`). -/
def searchStage (v : List (Nat × Row)) (q : String) : List (Nat × Row) :=
  if (pyStrip q).data.isEmpty then v
  else
    let s := pyLower (pyStrip q)
    v.filter fun p => fieldMatches p.2.itemNeeded s || fieldMatches p.2.whereToGet s

/-- The filtered-data section of `app.py` (lines 156-169): start from the
table with its positional index, then apply, in order, the urgency filter,
the completed filter, and the search filter.  The original positional index
of each surviving row is retained. -/
def computeFilteredView (t : List Row) (u : List String) (sc : Bool) (q : String) :
    List (Nat × Row) :=
  searchStage (completedStage (urgencyStage t u) sc) q

/-- Outcome of a mutating handler: the canonical table afterwards, whether
a validation error was shown (`st.error`), and the tables passed to
`save_data`, in call order. -/
structure HandlerResult where
  table : List Row
  validationError : Bool
  saved : List (List Row)
  deriving DecidableEq, Repr

/-- The row built by the add-item form (lines 140-147): item, quantity and
source are stripped, urgency is taken as selected, `Date Added` is the
formatted current time (passed in as `now`), `Completed` starts false. -/
def newRow (now item qty wtg urg : String) : Row :=
  { dateAdded := some now
    itemNeeded := some (pyStrip item)
    quantity := some (pyStrip qty)
    whereToGet := some (pyStrip wtg)
    urgency := some urg
    completed := false }

/-- The submit branch of the add-item form (lines 136-153): if the stripped
item name is empty, show an error and change nothing; otherwise append the
new row to the canonical table and save the whole table. -/
def submitAddItem (t : List Row) (now item qty wtg urg : String) : HandlerResult :=
  if (pyStrip item).data.isEmpty then
    { table := t, validationError := true, saved := [] }
  else
    let t2 := t ++ [newRow now item qty wtg urg]
    { table := t2, validationError := false, saved := [t2] }

/-- The edit write-back (line 195):
`st.session_state.df.loc[edited_df.index, :] = edited_df` assigns, for each
label of the filtered view's index, the whole edited row into the canonical
table at that positional label. -/
def applyEdits (t : List Row) (view : List (Nat × Row)) (edited : List Row) :
    List Row :=
  ((view.map Prod.fst).zip edited).foldl (fun acc p => acc.set p.1 p.2) t

/-- The editable-table section (lines 193-196): write the edited view back
into the canonical table by index alignment, then save the full table. -/
def applyEditsAndSave (t : List Row) (view : List (Nat × Row)) (edited : List Row) :
    HandlerResult :=
  let t2 := applyEdits t view edited
  { table := t2, validationError := false, saved := [t2] }

/-- `load_data` (lines 19-36): read the remote rows; if there are none,
start from the canonical empty table; coerce the `Completed` column with
`fillna(False).astype(bool)`, i.e. a missing cell becomes `false`. -/
def load_data (remote : List RemoteRow) : List Row :=
  if remote.isEmpty then []
  else
    remote.map fun r =>
      { dateAdded := r.dateAdded
        itemNeeded := r.itemNeeded
        quantity := r.quantity
        whereToGet := r.whereToGet
        urgency := r.urgency
        completed := r.completed.getD false }

/-- `save_data` (lines 39-52): ensure every canonical column exists (always
true of a `Row`) and replace the whole remote content with the table; the
boolean `Completed` column is written as present booleans. -/
def save_data (t : List Row) : List RemoteRow :=
  t.map fun r =>
    { dateAdded := r.dateAdded
      itemNeeded := r.itemNeeded
      quantity := r.quantity
      whereToGet := r.whereToGet
      urgency := r.urgency
      completed := some r.completed }

/-- Does a pandas CSV field need quoting (QUOTE_MINIMAL): it contains the
delimiter, the quote character, or a line break. -/
def needsQuote (l : List Char) : Bool :=
  l.any fun c => c = ',' || c = '"' || c = '\n' || c = '\x0d'

/-- Double every quote character (CSV escaping inside a quoted field). -/
def escQuotes : List Char → List Char
  | [] => []
  | c :: cs => if c = '"' then '"' :: '"' :: escQuotes cs else c :: escQuotes cs

/-- One text cell as written by `to_csv`: NaN prints as the empty field,
a field holding a delimiter, quote or line break is quoted with doubled
inner quotes, anything else is written verbatim. -/
def csvField (field : Option String) : List Char :=
  match field with
  | none => []
  | some s => if needsQuote s.data then '"' :: (escQuotes s.data ++ ['"']) else s.data

/-- A boolean cell as written by `to_csv`. -/
def csvBool (b : Bool) : List Char :=
  if b then "True".data else "False".data

/-- Join character lists with a separator character. -/
def joinWith (sep : Char) : List (List Char) → List Char
  | [] => []
  | [l] => l
  | l :: l2 :: ls => l ++ sep :: joinWith sep (l2 :: ls)

/-- One table row as a CSV record, columns in canonical order. -/
def rowCsvLine (r : Row) : List Char :=
  joinWith ',' [csvField r.dateAdded, csvField r.itemNeeded, csvField r.quantity,
    csvField r.whereToGet, csvField r.urgency, csvBool r.completed]

/-- The CSV header record: the canonical columns in fixed order. -/
def headerLine : List Char :=
  joinWith ',' (canonicalColumns.map String.data)

/-- The records of `to_csv(index=False)`: header first, then one record per
table row in table order. -/
def csvRecords (t : List Row) : List (List Char) :=
  headerLine :: t.map rowCsvLine

/-- The full CSV text: records joined by the line terminator, with a
trailing terminator after the last record. -/
def csvText (t : List Row) : List Char :=
  joinWith '\n' (csvRecords t) ++ ['\n']

/-- The export section (lines 222-232): the download button exists only when
the canonical table is non-empty; it serialises the canonical table (not the
filtered view) with `to_csv(index=False)`. -/
def exportCsv (t : List Row) : Option String :=
  if t.isEmpty then none else some ⟨csvText t⟩

/-- Split a character list at every newline; a trailing newline yields a
final empty piece. -/
def splitNl : List Char → List (List Char)
  | [] => [[]]
  | c :: cs =>
    if c = '\n' then [] :: splitNl cs
    else
      match splitNl cs with
      | [] => [[c]]
      | l :: ls => (c :: l) :: ls

/-- A text cell free of line breaks (a missing cell is free of them). -/
def cleanCell : Option String → Bool
  | none => true
  | some s => !s.data.contains '\n'

/-- No text cell of the row contains a line break. -/
def cleanRow (r : Row) : Bool :=
  cleanCell r.dateAdded && cleanCell r.itemNeeded && cleanCell r.quantity &&
    cleanCell r.whereToGet && cleanCell r.urgency

/-! ## General helper lemmas -/

theorem string_eq_empty_iff (s : String) : s.data.isEmpty = true ↔ s = "" := by
  constructor
  · intro h
    cases s with
    | mk l =>
      cases l with
      | nil => rfl
      | cons c cs => simp [List.isEmpty] at h
  · intro h
    subst h
    rfl

theorem data_isEmpty_false_of_ne (s : String) (h : s ≠ "") : s.data.isEmpty = false := by
  simpa using (string_eq_empty_iff s).not.mpr h

/-! ## addItem (C2, C3, C8) -/

/-- C2: a call to the add-item handler whose item name is non-empty after
stripping appends exactly one row at the end of the table; the new row's
itemNeeded is the stripped input, completed starts false, dateAdded is the
current timestamp, no validation error is shown, and the full new table is
saved. -/
theorem addItem_valid_appends (t : List Row) (now item qty wtg urg : String)
    (h : pyStrip item ≠ "") :
    (submitAddItem t now item qty wtg urg).table =
        t ++ [newRow now item qty wtg urg] ∧
    (submitAddItem t now item qty wtg urg).table.length = t.length + 1 ∧
    (submitAddItem t now item qty wtg urg).table.getLast? =
        some (newRow now item qty wtg urg) ∧
    (newRow now item qty wtg urg).itemNeeded = some (pyStrip item) ∧
    (newRow now item qty wtg urg).completed = false ∧
    (newRow now item qty wtg urg).dateAdded = some now ∧
    (submitAddItem t now item qty wtg urg).validationError = false ∧
    (submitAddItem t now item qty wtg urg).saved =
        [(submitAddItem t now item qty wtg urg).table] := by
  have hb := data_isEmpty_false_of_ne _ h
  simp [submitAddItem, hb, newRow]

/-- Witness for C2 at a concrete input. -/
theorem addItem_valid_appends_witness :
    (submitAddItem [] "2024-01-01 10:00" " Milk " "2 gallons" "Walmart" "Now").table.length
      = 1 :=
  (addItem_valid_appends [] "2024-01-01 10:00" " Milk " "2 gallons" "Walmart" "Now"
    (by decide)).2.1

/-- C3: a call to the add-item handler whose item name is empty after
stripping leaves the table unchanged, shows a validation error, and calls
save on nothing. -/
theorem addItem_blank_rejected (t : List Row) (now item qty wtg urg : String)
    (h : pyStrip item = "") :
    submitAddItem t now item qty wtg urg =
      { table := t, validationError := true, saved := [] } := by
  have hb : (pyStrip item).data.isEmpty = true := (string_eq_empty_iff _).mpr h
  simp [submitAddItem, hb]

/-- Witness for C3 at a concrete input. -/
theorem addItem_blank_rejected_witness :
    submitAddItem [] "2024-01-01 10:00" "   " "2" "Walmart" "Now" =
      { table := [], validationError := true, saved := [] } :=
  addItem_blank_rejected [] "2024-01-01 10:00" "   " "2" "Walmart" "Now" (by decide)

/-- C8: the stored row's quantity and whereToGet equal the stripped form of
the corresponding inputs, not the raw inputs. -/
theorem addItem_trims_optional_fields (t : List Row) (now item qty wtg urg : String)
    (h : pyStrip item ≠ "") :
    (submitAddItem t now item qty wtg urg).table.getLast? =
        some (newRow now item qty wtg urg) ∧
    (newRow now item qty wtg urg).quantity = some (pyStrip qty) ∧
    (newRow now item qty wtg urg).whereToGet = some (pyStrip wtg) := by
  have hb := data_isEmpty_false_of_ne _ h
  simp [submitAddItem, hb, newRow]

/-- Witness for C8 at a concrete input: the raw quantity `"2 gallons "` and
source `" Walmart"` are stored stripped. -/
theorem addItem_trims_optional_fields_witness :
    (newRow "2024-01-01 10:00" "Milk" "2 gallons " " Walmart" "Now").quantity
        = some "2 gallons" ∧
    (newRow "2024-01-01 10:00" "Milk" "2 gallons " " Walmart" "Now").whereToGet
        = some "Walmart" := by
  have h := addItem_trims_optional_fields [] "2024-01-01 10:00" "Milk" "2 gallons "
    " Walmart" "Now" (by decide)
  exact ⟨by rw [h.2.1]; decide, by rw [h.2.2]; decide⟩

/-! ## Filter composition (C1) -/

/-- Counterexample to C1 as stated: with an empty urgency set the source
skips the urgency filter (`if urgency_filter:` on an empty, falsy list), so
the view is the whole table, not zero rows. -/
theorem emptyUrgencyFilter_returns_rows :
    computeFilteredView [⟨none, some "Milk", none, none, some "Now", false⟩] [] true "" =
      [(0, ⟨none, some "Milk", none, none, some "Now", false⟩)] := by
  decide

/-- C1 amended: with an empty urgency set, showCompleted and empty search the
view is the whole table (the empty multiselect disables the urgency filter);
and with all three urgencies selected, showCompleted = false and empty search
no returned row is completed. -/
theorem filterComposition_amended (t : List Row) :
    computeFilteredView t [] true "" = t.enum ∧
    ∀ p ∈ computeFilteredView t allUrgencies false "", p.2.completed = false := by
  constructor
  · rfl
  · intro p hp
    have hview : computeFilteredView t allUrgencies false "" =
        (urgencyStage t allUrgencies).filter fun p => !p.2.completed := rfl
    rw [hview] at hp
    simpa using (List.mem_filter.mp hp).2

/-- Witness for the amended C1 at a concrete input. -/
theorem filterComposition_amended_witness :
    ((⟨none, some "Milk", none, none, some "Now", false⟩ : Row)).completed = false :=
  (filterComposition_amended
      [⟨none, some "Milk", none, none, some "Now", false⟩,
       ⟨none, some "Eggs", none, none, some "Soon", true⟩]).2
    (0, ⟨none, some "Milk", none, none, some "Now", false⟩) (by decide)

/-! ## Search with missing cells (C9) -/

/-- Counterexample to C9 as stated: the search text `" "` is non-empty, yet a
row with both searchable cells missing stays in the view, because the source
strips the search text before testing it and skips the whole search filter
when the stripped text is empty. -/
theorem blankSearch_keeps_missing_row :
    (" " : String) ≠ "" ∧
    computeFilteredView [⟨none, none, none, none, some "Now", false⟩] allUrgencies true " " =
      [(0, ⟨none, none, none, none, some "Now", false⟩)] := by
  constructor
  · decide
  · decide

/-- C9 amended: for every search text that is non-empty after stripping, a
row whose itemNeeded and whereToGet cells are both missing is excluded from
the filtered view (`na=False` makes a missing cell never match). -/
theorem search_excludes_missing_fields (t : List Row) (u : List String) (sc : Bool)
    (q : String) (hq : pyStrip q ≠ "") (i : Nat) (r : Row)
    (hitem : r.itemNeeded = none) (hwtg : r.whereToGet = none) :
    (i, r) ∉ computeFilteredView t u sc q := by
  have hb := data_isEmpty_false_of_ne _ hq
  intro hmem
  unfold computeFilteredView searchStage at hmem
  rw [hb] at hmem
  simp only [Bool.false_eq_true, if_false] at hmem
  have h2 := (List.mem_filter.mp hmem).2
  simp [fieldMatches, hitem, hwtg] at h2

/-- Witness for the amended C9 at a concrete input. -/
theorem search_excludes_missing_fields_witness :
    (0, (⟨none, none, none, none, some "Now", false⟩ : Row)) ∉
      computeFilteredView [⟨none, none, none, none, some "Now", false⟩]
        allUrgencies true "milk" :=
  search_excludes_missing_fields _ _ _ _ (by decide) _ _ rfl rfl

/-! ## Persistence round trip (C5) -/

/-- The `df.empty` branch of `load_data` is invisible at the table level:
loading is the per-row completion coercion. -/
theorem load_data_eq_map (remote : List RemoteRow) :
    load_data remote = remote.map fun r =>
      { dateAdded := r.dateAdded
        itemNeeded := r.itemNeeded
        quantity := r.quantity
        whereToGet := r.whereToGet
        urgency := r.urgency
        completed := r.completed.getD false } := by
  cases remote <;> rfl

/-- Counterexample to C5 as stated: a remote row whose Completed cell is
missing is rewritten by load-then-save, because `load_data` coerces the
missing cell to `false` and `save_data` writes that `false` back. -/
theorem saveLoad_not_noop :
    save_data (load_data [⟨none, none, none, none, none, none⟩]) ≠
      [⟨none, none, none, none, none, none⟩] := by
  decide

/-- C5 amended: load-then-save is a no-op on remote content in which every
row's Completed cell is present; a missing Completed cell is normalized to an
explicit false. -/
theorem saveLoad_noop_of_completed_present (remote : List RemoteRow)
    (h : ∀ r ∈ remote, r.completed ≠ none) :
    save_data (load_data remote) = remote := by
  rw [load_data_eq_map]
  unfold save_data
  rw [List.map_map]
  conv_rhs => rw [← List.map_id remote]
  apply List.map_congr_left
  intro r hr
  have hne := h r hr
  rcases hc : r.completed with _ | b
  · exact absurd hc hne
  · cases r
    simp_all

/-- Witness for the amended C5 at a concrete input. -/
theorem saveLoad_noop_witness :
    save_data (load_data
        [⟨some "2024-01-01", some "Milk", none, some "Walmart", some "Now", some false⟩]) =
      [⟨some "2024-01-01", some "Milk", none, some "Walmart", some "Now", some false⟩] :=
  saveLoad_noop_of_completed_present _ (by decide)

/-! ## Filter-stage membership and shape (C6, C10) -/

theorem mem_urgencyStage (t : List Row) (u : List String) (p : Nat × Row) :
    p ∈ urgencyStage t u ↔ p ∈ t.enum ∧ (u ≠ [] → urgencyIn u p.2 = true) := by
  unfold urgencyStage
  cases u with
  | nil => simp
  | cons a l => simp [List.mem_filter]

theorem mem_completedStage (v : List (Nat × Row)) (sc : Bool) (p : Nat × Row) :
    p ∈ completedStage v sc ↔ p ∈ v ∧ (sc = false → p.2.completed = false) := by
  unfold completedStage
  cases sc <;> simp [List.mem_filter]

theorem mem_searchStage (v : List (Nat × Row)) (q : String) (p : Nat × Row) :
    p ∈ searchStage v q ↔ p ∈ v ∧ (pyStrip q ≠ "" →
      (fieldMatches p.2.itemNeeded (pyLower (pyStrip q)) ||
        fieldMatches p.2.whereToGet (pyLower (pyStrip q))) = true) := by
  unfold searchStage
  by_cases h : pyStrip q = ""
  · rw [(string_eq_empty_iff _).mpr h]
    simp [h]
  · rw [data_isEmpty_false_of_ne _ h]
    simp [List.mem_filter, h]

theorem urgencyStage_sublist (t : List Row) (u : List String) :
    (urgencyStage t u).Sublist t.enum := by
  unfold urgencyStage
  split
  · exact List.Sublist.refl _
  · exact List.filter_sublist _

theorem completedStage_sublist (v : List (Nat × Row)) (sc : Bool) :
    (completedStage v sc).Sublist v := by
  unfold completedStage
  split
  · exact List.Sublist.refl _
  · exact List.filter_sublist _

theorem searchStage_sublist (v : List (Nat × Row)) (q : String) :
    (searchStage v q).Sublist v := by
  unfold searchStage
  split
  · exact List.Sublist.refl _
  · exact List.filter_sublist _

theorem filteredView_sublist_enum (t : List Row) (u : List String) (sc : Bool)
    (q : String) : (computeFilteredView t u sc q).Sublist t.enum :=
  ((searchStage_sublist _ _).trans (completedStage_sublist _ _)).trans
    (urgencyStage_sublist _ _)

theorem mem_enum_getElem (t : List Row) (p : Nat × Row) (hp : p ∈ t.enum) :
    p.1 < t.length ∧ t[p.1]? = some p.2 := by
  have h := List.mem_enum_iff_getElem?.mp hp
  refine ⟨?_, h⟩
  by_contra hge
  rw [List.getElem?_eq_none (Nat.le_of_not_lt hge)] at h
  cases h

theorem filteredView_fst_pairwise (t : List Row) (u : List String) (sc : Bool)
    (q : String) :
    ((computeFilteredView t u sc q).map Prod.fst).Pairwise (· < ·) := by
  have h1 : ((computeFilteredView t u sc q).map Prod.fst).Sublist
      (t.enum.map Prod.fst) := (filteredView_sublist_enum t u sc q).map Prod.fst
  rw [List.enum_map_fst] at h1
  exact List.Pairwise.sublist h1 (List.pairwise_lt_range t.length)

theorem reLeadMatch_eq_leadMatch (pat : List Char)
    (h : (pat.all fun c => !reMeta.contains c) = true) :
    ∀ l, reLeadMatch pat l = leadMatch pat l := by
  induction pat with
  | nil => intro l; cases l <;> rfl
  | cons c cs ih =>
    have hc : (!reMeta.contains c) = true ∧ (cs.all fun x => !reMeta.contains x) = true := by
      simpa [List.all_cons] using h
    have hcdot : c ≠ '.' := by
      intro hdot
      subst hdot
      exact absurd hc.1 (by decide)
    intro l
    cases l with
    | nil => rfl
    | cons d ds =>
      simp only [reLeadMatch, leadMatch, if_neg hcdot, ih hc.2 ds]

theorem reOccurs_eq_occursIn (pat : List Char)
    (h : (pat.all fun c => !reMeta.contains c) = true) :
    ∀ l, reOccurs pat l = occursIn pat l := by
  intro l
  induction l with
  | nil => rfl
  | cons d ds ih =>
    simp only [reOccurs, occursIn, reLeadMatch_eq_leadMatch pat h, ih]

theorem fieldMatches_eq_lit (field : Option String) (s : String)
    (h : regexFree s = true) :
    fieldMatches field s = fieldContainsLit field s := by
  cases field with
  | none => rfl
  | some f =>
    show reOccurs s.data (pyLower f).data = strContains (pyLower f) s
    unfold strContains
    exact reOccurs_eq_occursIn s.data (by simpa [regexFree] using h) (pyLower f).data

/-- Counterexample to C6 as stated: pandas matches the search text as a
regular expression, so the search text `"."` (say, typed on the way to
`"Dr. Pepper"`) keeps a row none of whose searchable cells contains a
literal dot — the row does not "contain the search text", yet it is in the
view.  (A pattern that is not even a valid regex, such as `"("`, makes
pandas raise, which no substring reading captures either.) -/
theorem search_dot_counterexample :
    (0, (⟨none, some "Milk", none, some "Walmart", some "Now", false⟩ : Row)) ∈
      computeFilteredView [⟨none, some "Milk", none, some "Walmart", some "Now", false⟩]
        allUrgencies true "." ∧
    fieldContainsLit (some "Milk") "." = false ∧
    fieldContainsLit (some "Walmart") "." = false := by
  refine ⟨by decide, by decide, by decide⟩

/-- C6 amended: for search text whose stripped, lowered form is free of
regex metacharacters (pandas matches the text as a regular expression, so
metacharacter search text escapes the substring reading and an invalid
pattern raises), a pair (index, row) is in the filtered view iff it is in
the indexed table and passes, conjointly, the urgency filter (only
constraining when the multiselect is non-empty), the completed filter (only
constraining when show-completed is off), and the case-folded literal
substring search on itemNeeded or whereToGet (only constraining when the
stripped search text is non-empty; missing cells never match).  The
derivation is a pure function: it reads the table, mutates nothing and
performs no persistence. -/
theorem filteredView_membership_regexFree (t : List Row) (u : List String) (sc : Bool)
    (q : String) (hq : regexFree (pyLower (pyStrip q)) = true) (p : Nat × Row) :
    p ∈ computeFilteredView t u sc q ↔
      p ∈ t.enum ∧
      (u ≠ [] → urgencyIn u p.2 = true) ∧
      (sc = false → p.2.completed = false) ∧
      (pyStrip q ≠ "" →
        (fieldContainsLit p.2.itemNeeded (pyLower (pyStrip q)) ||
          fieldContainsLit p.2.whereToGet (pyLower (pyStrip q))) = true) := by
  unfold computeFilteredView
  rw [mem_searchStage, mem_completedStage, mem_urgencyStage,
    fieldMatches_eq_lit _ _ hq, fieldMatches_eq_lit _ _ hq]
  tauto

/-- Witness for the amended C6 at a concrete input: an upper-case,
metacharacter-free search text matches a row through its whereToGet cell. -/
theorem filteredView_membership_regexFree_witness :
    (0, (⟨none, some "Milk", none, some "Walmart", some "Now", false⟩ : Row)) ∈
      computeFilteredView [⟨none, some "Milk", none, some "Walmart", some "Now", false⟩]
        allUrgencies true "WAL" :=
  (filteredView_membership_regexFree _ _ _ _ (by decide) _).mpr (by decide)

/-- C10: the filtered view is a subsequence of the indexed table: it is a
sublist of `t.enum`, its original indices are strictly increasing (so no
position is duplicated and relative order is preserved), and each view entry
carries the row found at its original position in the canonical table. -/
theorem filteredView_subsequence (t : List Row) (u : List String) (sc : Bool)
    (q : String) :
    (computeFilteredView t u sc q).Sublist t.enum ∧
    ((computeFilteredView t u sc q).map Prod.fst).Pairwise (· < ·) ∧
    ∀ p ∈ computeFilteredView t u sc q, t[p.1]? = some p.2 := by
  refine ⟨filteredView_sublist_enum t u sc q, filteredView_fst_pairwise t u sc q, ?_⟩
  intro p hp
  exact (mem_enum_getElem t p ((filteredView_sublist_enum t u sc q).subset hp)).2

/-- Witness for C10 at a concrete input. -/
theorem filteredView_subsequence_witness :
    [(⟨none, some "Milk", none, none, some "Now", false⟩ : Row)][(0 : Nat)]? =
      some (⟨none, some "Milk", none, none, some "Now", false⟩ : Row) :=
  (filteredView_subsequence [⟨none, some "Milk", none, none, some "Now", false⟩]
      allUrgencies true "").2.2
    (0, ⟨none, some "Milk", none, none, some "Now", false⟩) (by decide)

/-! ## Edit write-back (C4) -/

theorem foldlSet_length (l : List (Nat × Row)) (t : List Row) :
    (l.foldl (fun acc p => acc.set p.1 p.2) t).length = t.length := by
  induction l generalizing t with
  | nil => rfl
  | cons p l ih => rw [List.foldl_cons, ih, List.length_set]

theorem foldlSet_getElem_ne (l : List (Nat × Row)) (t : List Row) (j : Nat)
    (h : ∀ p ∈ l, p.1 ≠ j) :
    (l.foldl (fun acc p => acc.set p.1 p.2) t)[j]? = t[j]? := by
  induction l generalizing t with
  | nil => rfl
  | cons p l ih =>
    rw [List.foldl_cons, ih _ fun q hq => h q (List.mem_cons_of_mem _ hq)]
    exact List.getElem?_set_ne (h p (List.mem_cons_self _ _))

theorem foldlSet_getElem_mem :
    ∀ (l : List (Nat × Row)) (t : List Row) (j : Nat) (r : Row),
      (j, r) ∈ l → (l.map Prod.fst).Nodup → j < t.length →
      (l.foldl (fun acc p => acc.set p.1 p.2) t)[j]? = some r
  | [], _, _, _, hmem, _, _ => by cases hmem
  | p :: l, t, j, r, hmem, hnd, hj => by
    rw [List.foldl_cons]
    rw [List.map_cons] at hnd
    rcases List.mem_cons.mp hmem with heq | htail
    · have hp1 : p.1 = j := by rw [← heq]
      have hnotin : ∀ q ∈ l, q.1 ≠ j := by
        intro q hq hqj
        exact (List.nodup_cons.mp hnd).1
          (hp1 ▸ hqj ▸ List.mem_map_of_mem Prod.fst hq)
      rw [foldlSet_getElem_ne l _ j hnotin, hp1, ← heq]
      exact List.getElem?_set_self hj
    · exact foldlSet_getElem_mem l _ j r htail (List.nodup_cons.mp hnd).2
        (by rw [List.length_set]; exact hj)

/-- C4: writing an edited row set of the same shape as a filtered view back
into the canonical table overwrites, at each view position, the whole row at
that original index with the corresponding edited row, leaves every index
outside the view untouched, keeps the table length, and then saves the full
new table. -/
theorem applyEdits_overwrites_and_frames (t : List Row) (u : List String) (sc : Bool)
    (q : String) (view : List (Nat × Row)) (edited : List Row)
    (hv : view = computeFilteredView t u sc q) (hlen : edited.length = view.length) :
    (applyEdits t view edited).length = t.length ∧
    (∀ k (hk : k < view.length) (hk2 : k < edited.length),
        (applyEdits t view edited)[(view[k]).1]? = some edited[k]) ∧
    (∀ j, (∀ p ∈ view, p.1 ≠ j) → (applyEdits t view edited)[j]? = t[j]?) ∧
    applyEditsAndSave t view edited =
      { table := applyEdits t view edited
        validationError := false
        saved := [applyEdits t view edited] } := by
  have hsub : view.Sublist t.enum := by
    rw [hv]; exact filteredView_sublist_enum t u sc q
  have hpw : (view.map Prod.fst).Pairwise (· < ·) := by
    rw [hv]; exact filteredView_fst_pairwise t u sc q
  have hnd : (view.map Prod.fst).Nodup := hpw.imp Nat.ne_of_lt
  unfold applyEdits
  refine ⟨foldlSet_length _ _, ?_, ?_, rfl⟩
  · intro k hk hk2
    have hmfl : (view.map Prod.fst).length = view.length := List.length_map _ _
    have hlz : ((view.map Prod.fst).zip edited).map Prod.fst = view.map Prod.fst :=
      List.map_fst_zip _ _ (by rw [hmfl, hlen])
    have hklt : k < ((view.map Prod.fst).zip edited).length := by
      rw [List.length_zip, hmfl, hlen]
      exact Nat.lt_min.mpr ⟨hk, hk⟩
    have hget : ((view.map Prod.fst).zip edited)[k] = ((view[k]).1, edited[k]) := by
      rw [List.getElem_zip, List.getElem_map]
    have hmem : ((view[k]).1, edited[k]) ∈ (view.map Prod.fst).zip edited := by
      rw [← hget]
      exact List.getElem_mem hklt
    have hjb : (view[k]).1 < t.length :=
      (mem_enum_getElem t _ (hsub.subset (List.getElem_mem hk))).1
    have hndz : (((view.map Prod.fst).zip edited).map Prod.fst).Nodup := by
      rw [hlz]; exact hnd
    exact foldlSet_getElem_mem _ t _ _ hmem hndz hjb
  · intro j hj
    apply foldlSet_getElem_ne
    rintro ⟨a, b⟩ hp
    obtain ⟨ha, _⟩ := List.of_mem_zip hp
    obtain ⟨pr, hpr, hpr1⟩ := List.mem_map.mp ha
    exact hpr1 ▸ hj pr hpr

/-- Witness for C4 at a concrete input: with show-completed off the view
holds only the first row; editing it back leaves the hidden second row at
index 1 untouched. -/
theorem applyEdits_witness :
    (applyEdits
        [⟨none, some "Milk", none, none, some "Now", false⟩,
         ⟨none, some "Eggs", none, none, some "Soon", true⟩]
        (computeFilteredView
          [⟨none, some "Milk", none, none, some "Now", false⟩,
           ⟨none, some "Eggs", none, none, some "Soon", true⟩]
          allUrgencies false "")
        [⟨none, some "Oat milk", none, none, some "Now", false⟩])[1]? =
      some ⟨none, some "Eggs", none, none, some "Soon", true⟩ := by
  have h := (applyEdits_overwrites_and_frames
      [⟨none, some "Milk", none, none, some "Now", false⟩,
       ⟨none, some "Eggs", none, none, some "Soon", true⟩]
      allUrgencies false "" _
      [⟨none, some "Oat milk", none, none, some "Now", false⟩]
      rfl (by decide)).2.2.1 1 (by decide)
  rw [h]
  rfl

/-! ## CSV export (C7) -/

theorem splitNl_append_nl (a rest : List Char) (h : '\n' ∉ a) :
    splitNl (a ++ '\n' :: rest) = a :: splitNl rest := by
  induction a with
  | nil => simp [splitNl]
  | cons c cs ih =>
    have hc : c ≠ '\n' := fun hcc => h (hcc ▸ List.mem_cons_self _ _)
    have hcs : '\n' ∉ cs := fun hm => h (List.mem_cons_of_mem _ hm)
    rw [List.cons_append]
    simp only [splitNl, hc, if_false, ih hcs]

theorem splitNl_join (l : List Char) (ls : List (List Char)) (hl : '\n' ∉ l)
    (hls : ∀ m ∈ ls, '\n' ∉ m) :
    splitNl (joinWith '\n' (l :: ls) ++ ['\n']) = (l :: ls) ++ [[]] := by
  induction ls generalizing l with
  | nil =>
    show splitNl (l ++ '\n' :: []) = [l, []]
    rw [splitNl_append_nl _ _ hl]
    rfl
  | cons m ms ih =>
    have h1 : joinWith '\n' (l :: m :: ms) = l ++ '\n' :: joinWith '\n' (m :: ms) := rfl
    rw [h1, List.append_assoc, List.cons_append,
      splitNl_append_nl _ _ hl,
      ih m (hls m (List.mem_cons_self _ _))
        (fun x hx => hls x (List.mem_cons_of_mem _ hx))]
    rfl

theorem mem_escQuotes (c : Char) (l : List Char) (h : c ∈ escQuotes l) :
    c ∈ l ∨ c = '"' := by
  induction l with
  | nil => cases h
  | cons d ds ih =>
    by_cases hd : d = '"'
    · simp only [escQuotes, if_pos hd, List.mem_cons] at h
      rcases h with h1 | h1 | h1
      · exact Or.inr (hd ▸ h1)
      · exact Or.inr (hd ▸ h1)
      · rcases ih h1 with h2 | h2
        · exact Or.inl (List.mem_cons_of_mem _ h2)
        · exact Or.inr h2
    · simp only [escQuotes, if_neg hd, List.mem_cons] at h
      rcases h with h1 | h1
      · exact Or.inl (h1 ▸ List.mem_cons_self _ _)
      · rcases ih h1 with h2 | h2
        · exact Or.inl (List.mem_cons_of_mem _ h2)
        · exact Or.inr h2

theorem csvField_nl (field : Option String) (h : cleanCell field = true) :
    '\n' ∉ csvField field := by
  cases field with
  | none => simp [csvField]
  | some s =>
    have hns : '\n' ∉ s.data := by
      intro hm
      have h2 : s.data.contains '\n' = true := by
        simpa [List.contains] using List.elem_eq_true_of_mem hm
      simp only [cleanCell, h2, Bool.not_true] at h
      exact absurd h (by decide)
    have heq : csvField (some s) =
        if needsQuote s.data then '"' :: (escQuotes s.data ++ ['"']) else s.data := rfl
    rw [heq]
    split
    · intro hmem
      rcases List.mem_cons.mp hmem with h1 | h1
      · cases h1
      · rcases List.mem_append.mp h1 with h2 | h2
        · rcases mem_escQuotes _ _ h2 with h3 | h3
          · exact hns h3
          · cases h3
        · rcases List.mem_cons.mp h2 with h3 | h3
          · cases h3
          · cases h3
    · exact hns

theorem csvBool_nl (b : Bool) : '\n' ∉ csvBool b := by
  cases b <;> decide

theorem joinWith_not_mem (c sep : Char) (hcs : sep ≠ c) :
    ∀ ls : List (List Char), (∀ l ∈ ls, c ∉ l) → c ∉ joinWith sep ls
  | [], _ => by simp [joinWith]
  | [l], h => by simpa [joinWith] using h l (List.mem_cons_self _ _)
  | l :: l2 :: ls, h => by
    have h1 := h l (List.mem_cons_self _ _)
    have h2 := joinWith_not_mem c sep hcs (l2 :: ls)
      (fun m hm => h m (List.mem_cons_of_mem _ hm))
    intro hmem
    simp only [joinWith] at hmem
    rcases List.mem_append.mp hmem with h3 | h3
    · exact h1 h3
    · rcases List.mem_cons.mp h3 with h4 | h4
      · exact hcs h4.symm
      · exact h2 h4

theorem rowCsvLine_nl (r : Row) (h : cleanRow r = true) : '\n' ∉ rowCsvLine r := by
  unfold cleanRow at h
  simp only [Bool.and_eq_true] at h
  obtain ⟨⟨⟨⟨h1, h2⟩, h3⟩, h4⟩, h5⟩ := h
  apply joinWith_not_mem _ _ (by decide)
  intro m hm
  simp only [List.mem_cons, List.not_mem_nil, or_false] at hm
  rcases hm with rfl | rfl | rfl | rfl | rfl | rfl
  exacts [csvField_nl _ h1, csvField_nl _ h2, csvField_nl _ h3, csvField_nl _ h4,
    csvField_nl _ h5, csvBool_nl _]

theorem headerLine_nl : '\n' ∉ headerLine := by decide

/-- Counterexample to C7 as stated: a row whose itemNeeded embeds a line
break is quoted by the CSV writer but keeps the break, so the export text of
this one-row table contains three line breaks, not N + 1 = 2. -/
theorem exportCsv_embedded_newline :
    (exportCsv [⟨none, some ⟨['a', '\n', 'b']⟩, none, none, none, false⟩]).map
        (fun s => s.data.count '\n') = some 3 ∧
    (exportCsv [⟨none, some ⟨['a', '\n', 'b']⟩, none, none, none, false⟩]).map
        (fun s => s.data.count '\n') ≠ some 2 := by
  constructor
  · decide
  · decide

/-- C7 amended: on a table none of whose cells embeds a line break, the
export is absent exactly for the zero-row table, and otherwise its text
splits at line breaks into the header record (canonical columns in fixed
order), then one record per table row in table order — N + 1 lines — plus
the empty fragment after the trailing terminator. -/
theorem exportCsv_lines (t : List Row) (hclean : ∀ r ∈ t, cleanRow r = true) :
    (exportCsv t = none ↔ t = []) ∧
    ∀ s, exportCsv t = some s →
      splitNl s.data = (headerLine :: t.map rowCsvLine) ++ [[]] ∧
      (splitNl s.data).dropLast = headerLine :: t.map rowCsvLine ∧
      (splitNl s.data).dropLast.length = t.length + 1 := by
  constructor
  · unfold exportCsv
    split
    · simp [List.isEmpty_iff.mp ‹_›]
    · rename_i hf
      have hne : t ≠ [] := by
        intro he
        subst he
        exact hf rfl
      simp [hne]
  · intro s hs
    unfold exportCsv at hs
    split at hs
    · cases hs
    · have hdata : s.data = csvText t := by cases hs; rfl
      rw [hdata]
      unfold csvText csvRecords
      rw [splitNl_join headerLine (t.map rowCsvLine) headerLine_nl
        (fun m hm => by
          obtain ⟨r, hr, rfl⟩ := List.mem_map.mp hm
          exact rowCsvLine_nl r (hclean r hr))]
      refine ⟨rfl, ?_, ?_⟩
      · rw [List.dropLast_concat]
      · rw [List.dropLast_concat]
        simp

/-- Witness for the amended C7 at a concrete one-row table. -/
theorem exportCsv_lines_witness :
    (splitNl (csvText [⟨none, some "Milk", none, none, some "Now", false⟩])).dropLast.length
      = 1 + 1 :=
  ((exportCsv_lines [⟨none, some "Milk", none, none, some "Now", false⟩] (by decide)).2
    ⟨csvText [⟨none, some "Milk", none, none, some "Now", false⟩]⟩ rfl).2.2

end Grocer
